import Mathlib

/-!
Shallow embedding of the automation script `.github/codex-refactor.py`
(one-shot CI glue: sync a base branch, snapshot the repository, ask a
hosted model for a unified diff, apply it on a fresh branch, commit and
push).  Pure helpers are translated as Lean functions; the effectful
orchestrator is translated as a function from an external `World`
(subprocess oracle, file-system reads, model output) to a trace of
observable events plus an outcome.
-/

namespace CodexRefactor

/-! ## Basic string helpers -/

/-- Python string slicing `s[:n]` by code points. -/
def strTake (n : Nat) (s : String) : String :=
  String.mk (s.data.take n)

/-- Python `str.strip()` with no argument: remove leading and trailing
whitespace (the Lean `Char.isWhitespace` set covers the whitespace that
subprocess output and the templates contain). -/
def pyStrip (s : String) : String :=
  String.mk (((s.data.dropWhile Char.isWhitespace).reverse.dropWhile
    Char.isWhitespace).reverse)

/-- Python substring containment test `sub in s`. -/
def strContains (s sub : String) : Bool :=
  decide (sub.data <:+: s.data)

/-- Python `s.startswith(pre)`. -/
def pyStartsWith (s pre : String) : Bool :=
  pre.data.isPrefixOf s.data

/-! ## Model of `shlex.quote`

CPython's `shlex.quote(s)` returns `''` when `s` is empty, returns `s`
unchanged when every character is in the safe class, and
otherwise wraps `s` in single quotes after replacing every embedded
single quote by the five characters quote, double-quote, quote,
double-quote, quote.  The safe class is ASCII letters, digits,
underscore, and the characters at, percent, plus, equals, colon,
comma, dot, slash, hyphen. -/

def shlexSafe (c : Char) : Bool :=
  c.isAlpha || c.isDigit || c = '_' || c = '@' || c = '%' || c = '+' ||
  c = '=' || c = ':' || c = ',' || c = '.' || c = '/' || c = '-'

/-- Expansion of one character inside the single-quoted form. -/
def quoteChar (c : Char) : List Char :=
  if c = '\'' then ['\'', '"', '\'', '"', '\''] else [c]

def shlexQuote (s : String) : String :=
  if s.data = [] then "''"
  else if s.data.all shlexSafe then s
  else String.mk ('\'' :: (s.data.flatMap quoteChar ++ ['\'']))

/-! ## Simplified POSIX shell word lexer

Used to state the command-injection claim: a command string is lexed
into the list of words a POSIX shell would hand to the program as
argv.  Single-quoted spans are literal; double-quoted spans are literal
except that the lexer *refuses* (returns none) on characters that would
trigger expansion there.  Outside quotes, blanks separate words and any
shell metacharacter or control operator makes the lexer refuse, so a
some-result certifies a single simple command with exactly the given
words. -/

def isBlank (c : Char) : Bool := c = ' ' || c = '\t'

/-- Characters that, unquoted, could split commands, redirect, expand or
escape; the lexer refuses them rather than model their semantics. -/
def isShellSpecial (c : Char) : Bool :=
  c = ';' || c = '&' || c = '|' || c = '<' || c = '>' || c = '(' ||
  c = ')' || c = '\n' || c = '$' || c = '\\' || c = '#' || c = '*' ||
  c = '?' || c = '~' || c = '!' || c = '\r' || c = '\u0060' ||
  c = '\u007b' || c = '\u007d'

inductive LexMode where
  | normal
  | insingle
  | indouble
  deriving DecidableEq, Repr

def lex : LexMode → List Char → List Char → Bool → List (List Char) →
    Option (List (List Char))
  | .normal, [], acc, started, words =>
      some (words ++ if started then [acc] else [])
  | .normal, c :: rest, acc, started, words =>
      if c = '\'' then lex .insingle rest acc true words
      else if c = '"' then lex .indouble rest acc true words
      else if isBlank c then
        lex .normal rest [] false (words ++ if started then [acc] else [])
      else if isShellSpecial c then none
      else lex .normal rest (acc ++ [c]) true words
  | .insingle, [], _, _, _ => none
  | .insingle, c :: rest, acc, started, words =>
      if c = '\'' then lex .normal rest acc started words
      else lex .insingle rest (acc ++ [c]) started words
  | .indouble, [], _, _, _ => none
  | .indouble, c :: rest, acc, started, words =>
      if c = '"' then lex .normal rest acc started words
      else if c = '$' || c = '\u0060' || c = '\\' then none
      else lex .indouble rest (acc ++ [c]) started words

/-- Words of a shell command line, if it is one safe simple command. -/
def shellWords (s : String) : Option (List String) :=
  (lex .normal s.data [] false []).map (List.map String.mk)

/-! ## Model of `pathlib.PurePosixPath` name and suffix -/

def splitSlashAux : List Char → List Char → List String
  | [], acc => [String.mk acc.reverse]
  | c :: rest, acc =>
    if c = '/' then String.mk acc.reverse :: splitSlashAux rest []
    else splitSlashAux rest (c :: acc)

/-- Path components: split on the separator, dropping empty components
and bare-dot components, as the pathlib parser does. -/
def pathParts (path : String) : List String :=
  (splitSlashAux path.data []).filter (fun s => s ≠ "" && s ≠ ".")

/-- Final path component (`Path(p).name`, empty when there is none). -/
def pathName (path : String) : String :=
  (pathParts path).getLastD ""

/-- CPython `PurePath.suffix`: from the name, take the substring from
the last dot on, provided that dot is neither the first nor the last
character of the name; otherwise the suffix is empty. -/
def pathSuffix (path : String) : String :=
  let cs := (pathName path).data
  match ((List.range cs.length).filter (fun i => cs.getD i ' ' = '.')).getLast? with
  | none => ""
  | some i => if 0 < i ∧ i < cs.length - 1 then String.mk (cs.drop i) else ""

/-! ## Pure functions of the script -/

/-- Extension allow-list `incl_ext` from `should_include_file`. -/
def inclExt : List String :=
  [".js", ".ts", ".tsx", ".py", ".rb", ".go", ".java", ".cs", ".cpp",
   ".c", ".h", ".hpp", ".rs", ".swift", ".php", ".sh", ".yml", ".yaml",
   ".json", ".md", ".html", ".css"]

/-- Python `str.lower`, character by character (`Char.toLower` agrees
with Python on the ASCII range, which is all the allow-list mentions). -/
def lowerStr (s : String) : String :=
  String.mk (s.data.map Char.toLower)

/-- Python `should_include_file(path)`: keep the path when its
lowercased pathlib suffix is in the allow-list and none of the three
excluded directory substrings occurs in the path. -/
def should_include_file (path : String) : Bool :=
  inclExt.contains (lowerStr (pathSuffix path)) &&
  !(strContains path "node_modules/") &&
  !(strContains path ".git/") &&
  !(strContains path "vendor/")

/-- Characters at which Python `str.splitlines` breaks lines. -/
def isLineBreakChar (c : Char) : Bool :=
  c = '\n' || c = '\r' || c.toNat = 11 || c.toNat = 12 || c.toNat = 28 ||
  c.toNat = 29 || c.toNat = 30 || c.toNat = 133 || c.toNat = 8232 ||
  c.toNat = 8233

def splitlinesAux : List Char → List Char → List String
  | [], acc => if acc.isEmpty then [] else [String.mk acc.reverse]
  | '\r' :: '\n' :: rest, acc =>
    String.mk acc.reverse :: splitlinesAux rest []
  | c :: rest, acc =>
    if isLineBreakChar c then
      String.mk acc.reverse :: splitlinesAux rest []
    else splitlinesAux rest (c :: acc)

/-- Python `out.splitlines()`. -/
def splitlines (out : String) : List String :=
  splitlinesAux out.data []

/-- Python `list_files()`, as a function of the listing produced by the
version-control call `git ls-files` (already whitespace-trimmed by the
Command Runner). -/
def list_files (out : String) : List String :=
  (splitlines out).filter should_include_file

/-- One labeled excerpt of `repo_map`: the delimiter line naming the
path, then the file text truncated to the per-file character cap. -/
def excerpt (maxPerFileChars : Nat) (fp text : String) : String :=
  "--- " ++ fp ++ " ---\n" ++ strTake maxPerFileChars text

/-- The `parts` list built by `repo_map`'s loop: at most the first
`maxFiles` entries, each read attempt either yielding a full excerpt or
(on any read failure, modelled by `none`) being skipped silently. -/
def repoMapParts (readF : String → Option String) (files : List String)
    (maxPerFileChars maxFiles : Nat) : List String :=
  (files.take maxFiles).filterMap
    (fun fp => (readF fp).map (excerpt maxPerFileChars fp))

/-- Python `repo_map(files, max_per_file_chars, max_files)`; the script
calls it with the defaults 4000 and 150. -/
def repo_map (readF : String → Option String) (files : List String)
    (maxPerFileChars maxFiles : Nat) : String :=
  String.intercalate "\n\n" (repoMapParts readF files maxPerFileChars maxFiles)

/-- The `user_goal` template literal of `build_prompts`.  Its lines
carry no leading whitespace, so `textwrap.dedent` is the identity on
it and is not modelled separately. -/
def userGoalTemplate : String :=
  "\nReview the entire codebase with the goal of raising overall quality and maintainability.\nIdentify duplicate, near-duplicate, or overly verbose code that can be consolidated, and refactor it to improve clarity and consistency.\nBreak down monolithic functions into smaller, more focused units and ensure the code is DRY, clean, and easy to understand.\nAvoid unnecessary abstraction—do not introduce classes or functions that add complexity without real benefit—but re-implement outdated or incompatible code in a modern, clean way aligned with the current architecture.\nThe objective is to deliver a streamlined, high-quality, and consistent codebase that is maintainable, readable, and free of redundant logic.\n"

/-- The `system` template literal of `build_prompts`. -/
def systemTemplate : String :=
  "\nYou are an expert software engineer. Output ONLY a single unified diff (GNU patch format) relative to the current repository state.\nRules:\n- No prose; only diff.\n- Correct repo-relative paths.\n- Include new/removed/renamed files as needed.\n- Keep changes small but meaningful; safe refactors preferred.\n- The diff must apply cleanly with: git apply --index --whitespace=fix\n"

/-- Python `build_prompts(summary)`. -/
def build_prompts (summary : String) : String × String :=
  (pyStrip systemTemplate,
   pyStrip userGoalTemplate ++ "\n\nREPO MAP (truncated):\n" ++ summary)

/-! ## Effect model of the orchestrator

Observable events of one run, in order: lines printed to stdout and
stderr, subprocess invocations (with the `check` flag they were issued
under), and file writes. -/

inductive Event where
  | print (s : String)
  | eprint (s : String)
  | execCmd (cmd : String) (chk : Bool)
  | writeFile (path content : String)
  deriving DecidableEq, Repr

/-- Result of one subprocess, as captured by `subprocess.run`. -/
structure ProcResult where
  returncode : Int
  stdout : String
  stderr : String
  deriving DecidableEq, Repr

inductive Outcome where
  | finished
  | exited (code : Int)
  deriving DecidableEq, Repr

/-- The external world one run interacts with: the subprocess oracle
(a function of the events so far, so results may depend on history),
the file system reads of the snapshot builder, and the model response
as a function of the prompt pair. -/
structure World where
  exec : List Event → String → ProcResult
  readFile : String → Option String
  modelOutput : String × String → String

/-- Startup configuration, from the four environment variables. -/
structure Config where
  baseBranch : String
  changeBranch : String
  openaiModel : String
  apiKey : String
  deriving DecidableEq, Repr

/-- Python `run(cmd, check)`: print the command line, execute it, and
on a checked non-zero exit print both captured streams and terminate
the process with that exit code; otherwise return the trimmed stdout. -/
def runCmd (w : World) (st : List Event) (cmd : String) (chk : Bool) :
    List Event × Except Int String :=
  let p := w.exec st cmd
  let st1 := st ++ [Event.print ("$ " ++ cmd), Event.execCmd cmd chk]
  if chk ∧ p.returncode ≠ 0 then
    (st1 ++ [Event.print p.stdout, Event.eprint p.stderr], Except.error p.returncode)
  else
    (st1, Except.ok (pyStrip p.stdout))

/-- Python `git(args, check)` command-string construction. -/
def git_cmd (args : String) : String := "git " ++ args

def checkoutCmd (b : String) : String := git_cmd ("checkout " ++ shlexQuote b)

def pullCmd : String := git_cmd "pull --ff-only"

def lsFilesCmd : String := git_cmd "ls-files"

def checkoutBCmd (b : String) : String :=
  git_cmd ("checkout -b " ++ shlexQuote b)

def applyCmd : String := "git apply --index --whitespace=fix .codex.patch"

def statusCmd : String := git_cmd "status --porcelain"

def commitCmd : String :=
  git_cmd "commit -m \"Nightly automated refactor (Codex)\""

def pushCmd (b : String) : String := git_cmd ("push -u origin " ++ shlexQuote b)

/-- The initial sync and listing: checkout of the base branch,
fast-forward pull, and the tracked-file listing; returns the trimmed
`ls-files` output on success. -/
def syncPhase (cfg : Config) (w : World) : List Event × Except Int String :=
  match runCmd w [] (checkoutCmd cfg.baseBranch) true with
  | (st, Except.error c) => (st, Except.error c)
  | (st, Except.ok _) =>
    match runCmd w st pullCmd true with
    | (st, Except.error c) => (st, Except.error c)
    | (st, Except.ok _) => runCmd w st lsFilesCmd true

/-- The trimmed model response `diff` computed by `main` from the
`ls-files` output: list and filter files, build snapshot and prompts,
call the model, trim its output. -/
def mainDiff (w : World) (lsOut : String) : String :=
  pyStrip (w.modelOutput
    (build_prompts (repo_map w.readFile (list_files lsOut) 4000 150)))

/-- Python `diff.startswith(("diff --git", "--- "))`. -/
def looksLikeDiff (diff : String) : Bool :=
  pyStartsWith diff "diff --git" || pyStartsWith diff "--- "

/-- The Commit and Publish step: porcelain status with failure
tolerated; stop as a no-op when the trimmed status output is empty,
otherwise commit with the fixed message and push the change branch. -/
def publishPhase (cfg : Config) (w : World) (st : List Event) :
    List Event × Outcome :=
  match runCmd w st statusCmd false with
  | (st, Except.error c) => (st, Outcome.exited c)
  | (st, Except.ok statusOut) =>
    if statusOut = "" then
      (st ++ [Event.print "No changes to commit."], Outcome.finished)
    else
      match runCmd w st commitCmd true with
      | (st, Except.error c) => (st, Outcome.exited c)
      | (st, Except.ok _) =>
        match runCmd w st (pushCmd cfg.changeBranch) true with
        | (st, Except.error c) => (st, Outcome.exited c)
        | (st, Except.ok _) =>
          (st ++ [Event.print "Branch pushed; PR step will create/update the pull request."],
           Outcome.finished)

/-- The Apply step: create the change branch, write the patch file,
apply it (fatal on failure), then commit and publish. -/
def applyPhase (cfg : Config) (w : World) (st : List Event) (diff : String) :
    List Event × Outcome :=
  match runCmd w st (checkoutBCmd cfg.changeBranch) true with
  | (st, Except.error c) => (st, Outcome.exited c)
  | (st, Except.ok _) =>
    let st := st ++ [Event.writeFile ".codex.patch" diff]
    match runCmd w st applyCmd true with
    | (st, Except.error c) => (st, Outcome.exited c)
    | (st, Except.ok _) => publishPhase cfg w st

/-- Python `main()`. -/
def main (cfg : Config) (w : World) : List Event × Outcome :=
  match syncPhase cfg w with
  | (st, Except.error c) => (st, Outcome.exited c)
  | (st, Except.ok lsOut) =>
    let diff := mainDiff w lsOut
    if looksLikeDiff diff then applyPhase cfg w st diff
    else
      (st ++ [Event.print "Model did not return a unified diff; exiting without changes.",
              Event.print (strTake 2000 diff)],
       Outcome.finished)

/-- Module-level startup: the three optional environment variables with
their defaults, then the mandatory `OPENAI_API_KEY` lookup, whose
absence raises an uncaught `KeyError`.  `ts` is the UTC timestamp used
in the default change-branch name. -/
def startup (env : String → Option String) (ts : String) : Option Config :=
  (env "OPENAI_API_KEY").map (fun key =>
    { baseBranch := (env "BASE_BRANCH").getD "master"
      changeBranch := (env "CHANGE_BRANCH").getD ("codex/refactor-" ++ ts)
      openaiModel := (env "OPENAI_MODEL").getD "gpt-5-codex"
      apiKey := key })

/-- The whole process: startup (fatal with exit code 1 and no events
when the credential is absent), then `main`. -/
def program (env : String → Option String) (ts : String) (w : World) :
    List Event × Outcome :=
  match startup env ts with
  | none => ([], Outcome.exited 1)
  | some cfg => main cfg w


/-! ## Concrete worlds and configurations used by the witnesses -/

/-- A world in which every subprocess succeeds with empty output, no
file is readable, and the model answers with prose, not a diff. -/
def zeroWorld : World where
  exec := fun _ _ => ⟨0, "", ""⟩
  readFile := fun _ => none
  modelOutput := fun _ => "nope"

/-- A world in which every subprocess fails with exit code 2. -/
def failWorld : World where
  exec := fun _ _ => ⟨2, "out", "err"⟩
  readFile := fun _ => none
  modelOutput := fun _ => "nope"

/-- A configuration with the default base branch. -/
def cfg0 : Config where
  baseBranch := "master"
  changeBranch := "topic"
  openaiModel := "gpt-5-codex"
  apiKey := "k"

/-! ## Trace helper lemmas -/

lemma mem_execCmd_runCmd {w : World} {st : List Event} {cmd : String}
    {chk : Bool} {c : String} {k : Bool}
    (h : Event.execCmd c k ∈ (runCmd w st cmd chk).1) :
    Event.execCmd c k ∈ st ∨ (c = cmd ∧ k = chk) := by
  simp only [runCmd] at h
  by_cases hc : chk = true ∧ (w.exec st cmd).returncode ≠ 0
  · rw [if_pos hc] at h
    simp at h
    tauto
  · rw [if_neg hc] at h
    simp at h
    tauto

lemma mem_writeFile_runCmd {w : World} {st : List Event} {cmd : String}
    {chk : Bool} {p q : String}
    (h : Event.writeFile p q ∈ (runCmd w st cmd chk).1) :
    Event.writeFile p q ∈ st := by
  simp only [runCmd] at h
  by_cases hc : chk = true ∧ (w.exec st cmd).returncode ≠ 0
  · rw [if_pos hc] at h
    simpa using h
  · rw [if_neg hc] at h
    simpa using h

/-! ## Claim C3: the Command Runner contract -/

/-- C3: for every command string and subprocess result, the runner with
check set and a non-zero exit prints the captured stdout, prints the
captured stderr to the error stream, and terminates the process with
exactly that exit code; with check unset or a zero exit it returns the
whitespace-stripped captured stdout. -/
theorem run_check_contract (w : World) (st : List Event) (cmd : String) :
    ((w.exec st cmd).returncode ≠ 0 →
      runCmd w st cmd true =
        (st ++ [Event.print ("$ " ++ cmd), Event.execCmd cmd true,
                Event.print (w.exec st cmd).stdout,
                Event.eprint (w.exec st cmd).stderr],
         Except.error (w.exec st cmd).returncode)) ∧
    (∀ chk : Bool, chk = false ∨ (w.exec st cmd).returncode = 0 →
      runCmd w st cmd chk =
        (st ++ [Event.print ("$ " ++ cmd), Event.execCmd cmd chk],
         Except.ok (pyStrip (w.exec st cmd).stdout))) := by
  constructor
  · intro h
    simp [runCmd, h]
  · rintro chk hchk
    rcases hchk with rfl | h
    · simp [runCmd]
    · simp [runCmd, h]

/-- Witness for C3 at a concrete failing subprocess and at a concrete
succeeding one. -/
theorem run_check_contract_witness :
    runCmd failWorld [] "git pull --ff-only" true =
      ([Event.print "$ git pull --ff-only",
        Event.execCmd "git pull --ff-only" true,
        Event.print "out", Event.eprint "err"], Except.error 2) ∧
    runCmd failWorld [] "git pull --ff-only" false =
      ([Event.print "$ git pull --ff-only",
        Event.execCmd "git pull --ff-only" false], Except.ok "out") :=
  ⟨(run_check_contract failWorld [] "git pull --ff-only").1 (by decide),
   (run_check_contract failWorld [] "git pull --ff-only").2 false (Or.inl rfl)⟩

/-! ## Claim C8: the Prompt Builder is pure and deterministic -/

/-- C8: the prompt builder is a pure function of the snapshot: equal
snapshot strings give equal prompt pairs, and the system instruction
does not depend on the snapshot at all. -/
theorem build_prompts_deterministic :
    (∀ s₁ s₂ : String, s₁ = s₂ → build_prompts s₁ = build_prompts s₂) ∧
    (∀ s₁ s₂ : String, (build_prompts s₁).1 = (build_prompts s₂).1) := by
  constructor
  · intro s₁ s₂ h
    rw [h]
  · intro s₁ s₂
    rfl

/-- Witness for C8 at a concrete snapshot. -/
theorem build_prompts_deterministic_witness :
    build_prompts "SNAP" = build_prompts "SNAP" :=
  build_prompts_deterministic.1 "SNAP" "SNAP" rfl

/-! ## Claim C5: snapshot bounds -/

/-- C5: the snapshot is the join of the parts; there are at most
maxFiles parts; every part comes from one of the first maxFiles files,
embeds content truncated to at most maxPerFileChars characters, and is
preceded by the delimiter naming the file. -/
theorem repo_map_bounds (readF : String → Option String)
    (files : List String) (mp mf : Nat) :
    repo_map readF files mp mf =
      String.intercalate "\n\n" (repoMapParts readF files mp mf) ∧
    (repoMapParts readF files mp mf).length ≤ mf ∧
    (∀ part ∈ repoMapParts readF files mp mf,
      ∃ fp text, fp ∈ files.take mf ∧ readF fp = some text ∧
        part = "--- " ++ fp ++ " ---\n" ++ strTake mp text ∧
        (strTake mp text).length ≤ mp) := by
  refine ⟨rfl, ?_, ?_⟩
  · calc (repoMapParts readF files mp mf).length
        ≤ (files.take mf).length := List.length_filterMap_le _ _
      _ ≤ mf := by
        rw [List.length_take]
        exact min_le_left _ _
  · intro part hpart
    rw [repoMapParts, List.mem_filterMap] at hpart
    obtain ⟨fp, hfp, hmap⟩ := hpart
    obtain ⟨text, hread, hx⟩ := Option.map_eq_some'.mp hmap
    refine ⟨fp, text, hfp, hread, ?_, ?_⟩
    · rw [← hx]
      rfl
    · have hl : (strTake mp text).length = (text.data.take mp).length := rfl
      rw [hl, List.length_take]
      exact min_le_left _ _

/-- Witness for C5 at a concrete file list and reader. -/
theorem repo_map_bounds_witness :
    ∃ fp text, fp ∈ (["a"] : List String).take 150 ∧
      (fun _ => (some "ab" : Option String)) fp = some text ∧
      "--- a ---\nab" = "--- " ++ fp ++ " ---\n" ++ strTake 4000 text ∧
      (strTake 4000 text).length ≤ 4000 :=
  (repo_map_bounds (fun _ => some "ab") ["a"] 4000 150).2.2
    "--- a ---\nab" (by decide)

/-! ## Claim C7: unreadable files are skipped whole -/

/-- C7: when reading a file fails, that file contributes nothing to the
snapshot (every part comes whole from some other, readable file), and
the remaining readable files of the window still contribute their full
excerpts, so the run continues. -/
theorem repo_map_read_failure (readF : String → Option String)
    (files : List String) (mp mf : Nat) (fp : String)
    (hfail : readF fp = none) :
    (∀ part ∈ repoMapParts readF files mp mf,
      ∃ p text, p ≠ fp ∧ readF p = some text ∧ p ∈ files.take mf ∧
        part = excerpt mp p text) ∧
    (∀ p ∈ files.take mf, ∀ text, readF p = some text →
      excerpt mp p text ∈ repoMapParts readF files mp mf) := by
  constructor
  · intro part hpart
    rw [repoMapParts, List.mem_filterMap] at hpart
    obtain ⟨p, hp, hmap⟩ := hpart
    obtain ⟨text, hread, hx⟩ := Option.map_eq_some'.mp hmap
    refine ⟨p, text, ?_, hread, hp, hx.symm⟩
    intro he
    rw [he, hfail] at hread
    exact Option.noConfusion hread
  · intro p hp text hread
    rw [repoMapParts, List.mem_filterMap]
    exact ⟨p, hp, by rw [hread]; rfl⟩

/-- Witness for C7: one unreadable file among two. -/
theorem repo_map_read_failure_witness :
    excerpt 4000 "good.py" "ok" ∈
      repoMapParts
        (fun s => if s = "bad" then none else some "ok")
        ["bad", "good.py"] 4000 150 :=
  (repo_map_read_failure (fun s => if s = "bad" then none else some "ok")
      ["bad", "good.py"] 4000 150 "bad" (by decide)).2
    "good.py" (by decide) "ok" (by decide)

/-! ## Claim C6: missing credential is fatal before any side effect -/

/-- C6: without the API key the process fails at startup with no event
at all (no subprocess, no write, no print); with it, startup succeeds
and the other three environment variables fall back to their defaults. -/
theorem startup_credential (env : String → Option String) (ts : String)
    (w : World) :
    (env "OPENAI_API_KEY" = none →
      program env ts w = ([], Outcome.exited 1)) ∧
    (∀ k, env "OPENAI_API_KEY" = some k →
      ∃ cfg, startup env ts = some cfg ∧ program env ts w = main cfg w ∧
        cfg.apiKey = k ∧
        (env "BASE_BRANCH" = none → cfg.baseBranch = "master") ∧
        (env "CHANGE_BRANCH" = none →
          cfg.changeBranch = "codex/refactor-" ++ ts) ∧
        (env "OPENAI_MODEL" = none → cfg.openaiModel = "gpt-5-codex")) := by
  constructor
  · intro h
    simp [program, startup, h]
  · intro k h
    have hs : startup env ts = some
        { baseBranch := (env "BASE_BRANCH").getD "master"
          changeBranch := (env "CHANGE_BRANCH").getD ("codex/refactor-" ++ ts)
          openaiModel := (env "OPENAI_MODEL").getD "gpt-5-codex"
          apiKey := k } := by
      simp [startup, h]
    refine ⟨_, hs, ?_, rfl, ?_, ?_, ?_⟩
    · simp [program, hs]
    · intro h2
      simp [h2]
    · intro h2
      simp [h2]
    · intro h2
      simp [h2]

/-- Witness for C6: an empty environment fails with no side effect, and
an environment holding only the key starts up with the defaults. -/
theorem startup_credential_witness :
    program (fun _ => none) "20240101" zeroWorld = ([], Outcome.exited 1) ∧
    ∃ cfg, startup (fun v => if v = "OPENAI_API_KEY" then some "k" else none)
        "20240101" = some cfg ∧
      program (fun v => if v = "OPENAI_API_KEY" then some "k" else none)
        "20240101" zeroWorld = main cfg zeroWorld ∧
      cfg.apiKey = "k" ∧
      ((fun v : String => if v = "OPENAI_API_KEY" then some "k" else none)
          "BASE_BRANCH" = none → cfg.baseBranch = "master") ∧
      ((fun v : String => if v = "OPENAI_API_KEY" then some "k" else none)
          "CHANGE_BRANCH" = none →
        cfg.changeBranch = "codex/refactor-" ++ "20240101") ∧
      ((fun v : String => if v = "OPENAI_API_KEY" then some "k" else none)
          "OPENAI_MODEL" = none → cfg.openaiModel = "gpt-5-codex") :=
  ⟨(startup_credential (fun _ => none) "20240101" zeroWorld).1 rfl,
   (startup_credential (fun v => if v = "OPENAI_API_KEY" then some "k" else none)
      "20240101" zeroWorld).2 "k" (by decide)⟩


/-! ## Phase-level trace lemmas -/

lemma mem_execCmd_publishPhase {cfg : Config} {w : World} {st : List Event}
    {c : String} {k : Bool}
    (h : Event.execCmd c k ∈ (publishPhase cfg w st).1) :
    Event.execCmd c k ∈ st ∨ c = statusCmd ∧ k = false ∨
      c = commitCmd ∧ k = true ∨ c = pushCmd cfg.changeBranch ∧ k = true := by
  unfold publishPhase at h
  rcases hq1 : runCmd w st statusCmd false with ⟨st1, r1⟩
  rw [hq1] at h
  have m1 : Event.execCmd c k ∈ st1 →
      Event.execCmd c k ∈ st ∨ c = statusCmd ∧ k = false := by
    intro hm
    have hx : Event.execCmd c k ∈ (runCmd w st statusCmd false).1 := by
      rw [hq1]
      exact hm
    exact mem_execCmd_runCmd hx
  cases r1 with
  | error e =>
    simp only at h
    exact (m1 h).imp id Or.inl
  | ok s1 =>
    simp only at h
    by_cases hs : s1 = ""
    · rw [if_pos hs] at h
      simp only [List.mem_append, List.mem_singleton] at h
      rcases h with h | h
      · exact (m1 h).imp id Or.inl
      · exact absurd h (by simp)
    · rw [if_neg hs] at h
      rcases hq2 : runCmd w st1 commitCmd true with ⟨st2, r2⟩
      rw [hq2] at h
      have m2 : Event.execCmd c k ∈ st2 →
          Event.execCmd c k ∈ st ∨ c = statusCmd ∧ k = false ∨
            c = commitCmd ∧ k = true := by
        intro hm
        have h2 : Event.execCmd c k ∈ st1 ∨ c = commitCmd ∧ k = true := by
          have hx : Event.execCmd c k ∈ (runCmd w st1 commitCmd true).1 := by
            rw [hq2]
            exact hm
          exact mem_execCmd_runCmd hx
        rcases h2 with h2 | h2
        · exact (m1 h2).imp id Or.inl
        · exact Or.inr (Or.inr h2)
      cases r2 with
      | error e =>
        simp only at h
        exact (m2 h).imp id (Or.imp id Or.inl)
      | ok s2 =>
        simp only at h
        rcases hq3 : runCmd w st2 (pushCmd cfg.changeBranch) true with ⟨st3, r3⟩
        rw [hq3] at h
        have m3 : Event.execCmd c k ∈ st3 →
            Event.execCmd c k ∈ st ∨ c = statusCmd ∧ k = false ∨
              c = commitCmd ∧ k = true ∨
              c = pushCmd cfg.changeBranch ∧ k = true := by
          intro hm
          have h3 : Event.execCmd c k ∈ st2 ∨
              c = pushCmd cfg.changeBranch ∧ k = true := by
            have hx : Event.execCmd c k ∈
                (runCmd w st2 (pushCmd cfg.changeBranch) true).1 := by
              rw [hq3]
              exact hm
            exact mem_execCmd_runCmd hx
          rcases h3 with h3 | h3
          · exact (m2 h3).imp id (Or.imp id Or.inl)
          · exact Or.inr (Or.inr (Or.inr h3))
        cases r3 with
        | error e =>
          simp only at h
          exact m3 h
        | ok s3 =>
          simp only [List.mem_append, List.mem_singleton] at h
          rcases h with h | h
          · exact m3 h
          · exact absurd h (by simp)

lemma mem_execCmd_applyPhase {cfg : Config} {w : World} {st : List Event}
    {diff : String} {c : String} {k : Bool}
    (h : Event.execCmd c k ∈ (applyPhase cfg w st diff).1) :
    Event.execCmd c k ∈ st ∨ c = checkoutBCmd cfg.changeBranch ∧ k = true ∨
      c = applyCmd ∧ k = true ∨ c = statusCmd ∧ k = false ∨
      c = commitCmd ∧ k = true ∨ c = pushCmd cfg.changeBranch ∧ k = true := by
  unfold applyPhase at h
  rcases hq1 : runCmd w st (checkoutBCmd cfg.changeBranch) true with ⟨st1, r1⟩
  rw [hq1] at h
  have m1 : Event.execCmd c k ∈ st1 →
      Event.execCmd c k ∈ st ∨ c = checkoutBCmd cfg.changeBranch ∧ k = true := by
    intro hm
    have hx : Event.execCmd c k ∈
        (runCmd w st (checkoutBCmd cfg.changeBranch) true).1 := by
      rw [hq1]
      exact hm
    exact mem_execCmd_runCmd hx
  cases r1 with
  | error e =>
    simp only at h
    exact (m1 h).imp id Or.inl
  | ok s1 =>
    simp only at h
    rcases hq2 : runCmd w (st1 ++ [Event.writeFile ".codex.patch" diff])
        applyCmd true with ⟨st2, r2⟩
    rw [hq2] at h
    have m2 : Event.execCmd c k ∈ st2 →
        Event.execCmd c k ∈ st ∨ c = checkoutBCmd cfg.changeBranch ∧ k = true ∨
          c = applyCmd ∧ k = true := by
      intro hm
      have h2 : Event.execCmd c k ∈ st1 ++ [Event.writeFile ".codex.patch" diff] ∨
          c = applyCmd ∧ k = true := by
        have hx : Event.execCmd c k ∈
            (runCmd w (st1 ++ [Event.writeFile ".codex.patch" diff])
              applyCmd true).1 := by
          rw [hq2]
          exact hm
        exact mem_execCmd_runCmd hx
      rcases h2 with h2 | h2
      · simp only [List.mem_append, List.mem_singleton] at h2
        rcases h2 with h2 | h2
        · exact (m1 h2).imp id Or.inl
        · exact absurd h2 (by simp)
      · exact Or.inr (Or.inr h2)
    cases r2 with
    | error e =>
      simp only at h
      exact (m2 h).imp id (Or.imp id Or.inl)
    | ok s2 =>
      rcases mem_execCmd_publishPhase h with h3 | h3
      · exact (m2 h3).imp id (Or.imp id Or.inl)
      · exact Or.inr (Or.inr (Or.inr h3))

lemma mem_execCmd_syncPhase {cfg : Config} {w : World} {c : String} {k : Bool}
    (h : Event.execCmd c k ∈ (syncPhase cfg w).1) :
    (c = checkoutCmd cfg.baseBranch ∨ c = pullCmd ∨ c = lsFilesCmd) ∧
      k = true := by
  unfold syncPhase at h
  rcases hq1 : runCmd w [] (checkoutCmd cfg.baseBranch) true with ⟨st1, r1⟩
  rw [hq1] at h
  have m1 : Event.execCmd c k ∈ st1 →
      (c = checkoutCmd cfg.baseBranch ∨ c = pullCmd ∨ c = lsFilesCmd) ∧
        k = true := by
    intro hm
    have h1 : Event.execCmd c k ∈ ([] : List Event) ∨
        c = checkoutCmd cfg.baseBranch ∧ k = true := by
      have hx : Event.execCmd c k ∈
          (runCmd w [] (checkoutCmd cfg.baseBranch) true).1 := by
        rw [hq1]
        exact hm
      exact mem_execCmd_runCmd hx
    rcases h1 with h1 | h1
    · exact absurd h1 (by simp)
    · exact ⟨Or.inl h1.1, h1.2⟩
  cases r1 with
  | error e =>
    simp only at h
    exact m1 h
  | ok s1 =>
    simp only at h
    rcases hq2 : runCmd w st1 pullCmd true with ⟨st2, r2⟩
    rw [hq2] at h
    have m2 : Event.execCmd c k ∈ st2 →
        (c = checkoutCmd cfg.baseBranch ∨ c = pullCmd ∨ c = lsFilesCmd) ∧
          k = true := by
      intro hm
      have h2 : Event.execCmd c k ∈ st1 ∨ c = pullCmd ∧ k = true := by
        have hx : Event.execCmd c k ∈ (runCmd w st1 pullCmd true).1 := by
          rw [hq2]
          exact hm
        exact mem_execCmd_runCmd hx
      rcases h2 with h2 | h2
      · exact m1 h2
      · exact ⟨Or.inr (Or.inl h2.1), h2.2⟩
    cases r2 with
    | error e =>
      simp only at h
      exact m2 h
    | ok s2 =>
      have h3 : Event.execCmd c k ∈ st2 ∨ c = lsFilesCmd ∧ k = true :=
        mem_execCmd_runCmd h
      rcases h3 with h3 | h3
      · exact m2 h3
      · exact ⟨Or.inr (Or.inr h3.1), h3.2⟩

lemma mem_writeFile_syncPhase {cfg : Config} {w : World} {p q : String}
    (h : Event.writeFile p q ∈ (syncPhase cfg w).1) : False := by
  unfold syncPhase at h
  rcases hq1 : runCmd w [] (checkoutCmd cfg.baseBranch) true with ⟨st1, r1⟩
  rw [hq1] at h
  have m1 : Event.writeFile p q ∈ st1 → False := by
    intro hm
    have h1 : Event.writeFile p q ∈ ([] : List Event) := by
      have hx : Event.writeFile p q ∈
          (runCmd w [] (checkoutCmd cfg.baseBranch) true).1 := by
        rw [hq1]
        exact hm
      exact mem_writeFile_runCmd hx
    exact absurd h1 (by simp)
  cases r1 with
  | error e =>
    exact m1 (by simpa using h)
  | ok s1 =>
    simp only at h
    rcases hq2 : runCmd w st1 pullCmd true with ⟨st2, r2⟩
    rw [hq2] at h
    have m2 : Event.writeFile p q ∈ st2 → False := by
      intro hm
      have hx : Event.writeFile p q ∈ (runCmd w st1 pullCmd true).1 := by
        rw [hq2]
        exact hm
      exact m1 (mem_writeFile_runCmd hx)
    cases r2 with
    | error e =>
      exact m2 (by simpa using h)
    | ok s2 =>
      exact m2 (mem_writeFile_runCmd h)

lemma mem_execCmd_main {cfg : Config} {w : World} {c : String} {k : Bool}
    (h : Event.execCmd c k ∈ (main cfg w).1) :
    ((c = checkoutCmd cfg.baseBranch ∨ c = pullCmd ∨ c = lsFilesCmd ∨
        c = checkoutBCmd cfg.changeBranch ∨ c = applyCmd ∨ c = commitCmd ∨
        c = pushCmd cfg.changeBranch) ∧ k = true) ∨
      c = statusCmd ∧ k = false := by
  unfold main at h
  rcases hq : syncPhase cfg w with ⟨st0, r0⟩
  rw [hq] at h
  have m0 : Event.execCmd c k ∈ st0 →
      ((c = checkoutCmd cfg.baseBranch ∨ c = pullCmd ∨ c = lsFilesCmd ∨
          c = checkoutBCmd cfg.changeBranch ∨ c = applyCmd ∨ c = commitCmd ∨
          c = pushCmd cfg.changeBranch) ∧ k = true) ∨
        c = statusCmd ∧ k = false := by
    intro hm
    have h0 : (c = checkoutCmd cfg.baseBranch ∨ c = pullCmd ∨
        c = lsFilesCmd) ∧ k = true := by
      have hx : Event.execCmd c k ∈ (syncPhase cfg w).1 := by
        rw [hq]
        exact hm
      exact mem_execCmd_syncPhase hx
    exact Or.inl ⟨h0.1.imp id (Or.imp id Or.inl), h0.2⟩
  cases r0 with
  | error e =>
    simp only at h
    exact m0 h
  | ok lsOut =>
    simp only at h
    by_cases hd : looksLikeDiff (mainDiff w lsOut) = true
    · rw [if_pos hd] at h
      rcases mem_execCmd_applyPhase h with h1 | h1
      · exact m0 h1
      · rcases h1 with h1 | h1 | h1 | h1 | h1
        · exact Or.inl ⟨Or.inr (Or.inr (Or.inr (Or.inl h1.1))), h1.2⟩
        · exact Or.inl ⟨Or.inr (Or.inr (Or.inr (Or.inr (Or.inl h1.1)))), h1.2⟩
        · exact Or.inr h1
        · exact Or.inl ⟨Or.inr (Or.inr (Or.inr (Or.inr (Or.inr (Or.inl h1.1))))), h1.2⟩
        · exact Or.inl ⟨Or.inr (Or.inr (Or.inr (Or.inr (Or.inr (Or.inr h1.1))))), h1.2⟩
    · rw [if_neg hd] at h
      simp only [List.mem_append, List.mem_cons, List.mem_singleton] at h
      rcases h with h | h | h
      · exact m0 h
      · exact absurd h (by simp)
      · exact absurd h (by simp)

lemma mem_writeFile_main_nondiff {cfg : Config} {w : World} {st0 : List Event}
    {lsOut : String} (hq : syncPhase cfg w = (st0, Except.ok lsOut))
    (hd : looksLikeDiff (mainDiff w lsOut) = false) {p q : String}
    (h : Event.writeFile p q ∈ (main cfg w).1) : False := by
  unfold main at h
  rw [hq] at h
  simp only at h
  rw [if_neg (by rw [hd]; exact Bool.false_ne_true)] at h
  simp only [List.mem_append, List.mem_cons, List.mem_singleton] at h
  rcases h with h | h | h
  · have hx : Event.writeFile p q ∈ (syncPhase cfg w).1 := by
      rw [hq]
      exact h
    exact mem_writeFile_syncPhase hx
  · exact absurd h (by simp)
  · exact absurd h (by simp)

/-! ## Claim C1: a non-diff response is a mutation-free no-op -/

/-- C1: when the trimmed model response starts with neither recognized
diff header, the orchestrator only prints the notice and a preview of
at most 2000 characters and finishes successfully; beyond the initial
sync it runs no command at all and writes no file. -/
theorem nondiff_response_noop (cfg : Config) (w : World) (st0 : List Event)
    (lsOut : String) (hsync : syncPhase cfg w = (st0, Except.ok lsOut))
    (h1 : pyStartsWith (mainDiff w lsOut) "diff --git" = false)
    (h2 : pyStartsWith (mainDiff w lsOut) "--- " = false) :
    main cfg w =
      (st0 ++
        [Event.print "Model did not return a unified diff; exiting without changes.",
         Event.print (strTake 2000 (mainDiff w lsOut))],
       Outcome.finished) ∧
    (strTake 2000 (mainDiff w lsOut)).length ≤ 2000 ∧
    (∀ c k, Event.execCmd c k ∈ (main cfg w).1 → Event.execCmd c k ∈ st0) ∧
    (∀ p q, Event.writeFile p q ∉ (main cfg w).1) := by
  have hd : looksLikeDiff (mainDiff w lsOut) = false := by
    rw [looksLikeDiff, h1, h2]
    rfl
  have hmain : main cfg w =
      (st0 ++
        [Event.print "Model did not return a unified diff; exiting without changes.",
         Event.print (strTake 2000 (mainDiff w lsOut))],
       Outcome.finished) := by
    unfold main
    rw [hsync]
    simp only
    rw [if_neg (by rw [hd]; exact Bool.false_ne_true)]
  refine ⟨hmain, ?_, ?_, ?_⟩
  · have hl : (strTake 2000 (mainDiff w lsOut)).length =
        ((mainDiff w lsOut).data.take 2000).length := rfl
    rw [hl, List.length_take]
    exact min_le_left _ _
  · intro c k hm
    rw [hmain] at hm
    simp only [List.mem_append, List.mem_cons, List.mem_singleton] at hm
    rcases hm with hm | hm | hm
    · exact hm
    · exact absurd hm (by simp)
    · exact absurd hm (by simp)
  · intro p q hm
    exact mem_writeFile_main_nondiff hsync hd hm

/-- Witness for C1: a world whose model answers prose; the run prints
the notice and the preview and finishes with no mutation. -/
theorem nondiff_response_noop_witness :
    main cfg0 zeroWorld =
      ([Event.print "$ git checkout master",
        Event.execCmd "git checkout master" true,
        Event.print "$ git pull --ff-only",
        Event.execCmd "git pull --ff-only" true,
        Event.print "$ git ls-files",
        Event.execCmd "git ls-files" true] ++
        [Event.print "Model did not return a unified diff; exiting without changes.",
         Event.print (strTake 2000 (mainDiff zeroWorld ""))],
       Outcome.finished) :=
  (nondiff_response_noop cfg0 zeroWorld
      [Event.print "$ git checkout master",
       Event.execCmd "git checkout master" true,
       Event.print "$ git pull --ff-only",
       Event.execCmd "git pull --ff-only" true,
       Event.print "$ git ls-files",
       Event.execCmd "git ls-files" true] "" rfl (by decide) (by decide)).1


/-! ## More trace helpers -/

lemma mem_runCmd_of_mem {w : World} {st : List Event} {cmd : String}
    {chk : Bool} {e : Event} (h : e ∈ st) : e ∈ (runCmd w st cmd chk).1 := by
  simp only [runCmd]
  by_cases hc : chk = true ∧ (w.exec st cmd).returncode ≠ 0
  · rw [if_pos hc]
    simp [h]
  · rw [if_neg hc]
    simp [h]

lemma self_mem_runCmd {w : World} {st : List Event} {cmd : String}
    {chk : Bool} : Event.execCmd cmd chk ∈ (runCmd w st cmd chk).1 := by
  simp only [runCmd]
  by_cases hc : chk = true ∧ (w.exec st cmd).returncode ≠ 0
  · rw [if_pos hc]
    simp
  · rw [if_neg hc]
    simp

/-- A world in which only the porcelain status query fails, silently. -/
def failStatusWorld : World where
  exec := fun _ cmd =>
    if cmd = statusCmd then ⟨1, "", ""⟩ else ⟨0, "", ""⟩
  readFile := fun _ => none
  modelOutput := fun _ => "nope"

/-! ## Claim C10: only the status query tolerates failure -/

/-- C10: the porcelain status query is issued with check disabled: if
it exits non-zero with empty output the run still ends as the clean
"no changes" success; and in any run of the orchestrator, the status
query is the only command ever issued with check disabled. -/
theorem status_query_tolerates_failure (cfg : Config) (w : World)
    (st : List Event) :
    ((w.exec st statusCmd).returncode ≠ 0 →
      (w.exec st statusCmd).stdout = "" →
      publishPhase cfg w st =
        (st ++ [Event.print ("$ " ++ statusCmd),
                Event.execCmd statusCmd false,
                Event.print "No changes to commit."],
         Outcome.finished)) ∧
    (∀ c, Event.execCmd c false ∈ (main cfg w).1 → c = statusCmd) := by
  constructor
  · intro hrc hout
    have hrun : runCmd w st statusCmd false =
        (st ++ [Event.print ("$ " ++ statusCmd),
                Event.execCmd statusCmd false], Except.ok "") := by
      simp [runCmd, hout]
      rfl
    unfold publishPhase
    rw [hrun]
    simp
  · intro c h
    rcases mem_execCmd_main h with ⟨_, hk⟩ | ⟨hc, _⟩
    · exact absurd hk (by simp)
    · exact hc

/-- Witness for C10: a run whose status query fails with empty output
still ends in the clean no-changes state. -/
theorem status_query_tolerates_failure_witness :
    publishPhase cfg0 failStatusWorld [] =
      ([Event.print ("$ " ++ statusCmd), Event.execCmd statusCmd false,
        Event.print "No changes to commit."], Outcome.finished) :=
  (status_query_tolerates_failure cfg0 failStatusWorld []).1
    (by decide) (by decide)


/-! ## Command-string disequalities -/

lemma data_append (s t : String) : (s ++ t).data = s.data ++ t.data := rfl

lemma str_ne_of_getD (s t : String) (i : Nat)
    (h : s.data.getD i ' ' ≠ t.data.getD i ' ') : s ≠ t := by
  intro he
  rw [he] at h
  exact h rfl

lemma checkoutCmd_data (b : String) :
    (checkoutCmd b).data = "git checkout ".data ++ (shlexQuote b).data := by
  show ("git " ++ ("checkout " ++ shlexQuote b)).data = _
  rw [data_append, data_append, ← List.append_assoc]
  rfl

lemma checkoutBCmd_data (b : String) :
    (checkoutBCmd b).data = "git checkout -b ".data ++ (shlexQuote b).data := by
  show ("git " ++ ("checkout -b " ++ shlexQuote b)).data = _
  rw [data_append, data_append, ← List.append_assoc]
  rfl

lemma pushCmd_data (b : String) :
    (pushCmd b).data = "git push -u origin ".data ++ (shlexQuote b).data := by
  show ("git " ++ ("push -u origin " ++ shlexQuote b)).data = _
  rw [data_append, data_append, ← List.append_assoc]
  rfl

lemma checkoutCmd_getD (b : String) (i : Nat) (h : i < 13) :
    (checkoutCmd b).data.getD i ' ' = "git checkout ".data.getD i ' ' := by
  rw [checkoutCmd_data]
  exact List.getD_append _ _ _ _ h

lemma checkoutBCmd_getD (b : String) (i : Nat) (h : i < 16) :
    (checkoutBCmd b).data.getD i ' ' = "git checkout -b ".data.getD i ' ' := by
  rw [checkoutBCmd_data]
  exact List.getD_append _ _ _ _ h

lemma pushCmd_getD (b : String) (i : Nat) (h : i < 19) :
    (pushCmd b).data.getD i ' ' = "git push -u origin ".data.getD i ' ' := by
  rw [pushCmd_data]
  exact List.getD_append _ _ _ _ h

lemma commitCmd_ne_checkoutCmd (b : String) : commitCmd ≠ checkoutCmd b := by
  apply str_ne_of_getD _ _ 5
  rw [checkoutCmd_getD b 5 (by omega)]
  decide

lemma commitCmd_ne_checkoutBCmd (b : String) : commitCmd ≠ checkoutBCmd b := by
  apply str_ne_of_getD _ _ 5
  rw [checkoutBCmd_getD b 5 (by omega)]
  decide

lemma pushCmd_ne_checkoutCmd (b c : String) : pushCmd b ≠ checkoutCmd c := by
  apply str_ne_of_getD _ _ 4
  rw [pushCmd_getD b 4 (by omega), checkoutCmd_getD c 4 (by omega)]
  decide

lemma pushCmd_ne_checkoutBCmd (b c : String) : pushCmd b ≠ checkoutBCmd c := by
  apply str_ne_of_getD _ _ 4
  rw [pushCmd_getD b 4 (by omega), checkoutBCmd_getD c 4 (by omega)]
  decide

lemma pushCmd_ne_pullCmd (b : String) : pushCmd b ≠ pullCmd := by
  apply str_ne_of_getD _ _ 6
  rw [pushCmd_getD b 6 (by omega)]
  decide

lemma pushCmd_ne_lsFilesCmd (b : String) : pushCmd b ≠ lsFilesCmd := by
  apply str_ne_of_getD _ _ 4
  rw [pushCmd_getD b 4 (by omega)]
  decide

lemma pushCmd_ne_applyCmd (b : String) : pushCmd b ≠ applyCmd := by
  apply str_ne_of_getD _ _ 4
  rw [pushCmd_getD b 4 (by omega)]
  decide

lemma pushCmd_ne_statusCmd (b : String) : pushCmd b ≠ statusCmd := by
  apply str_ne_of_getD _ _ 4
  rw [pushCmd_getD b 4 (by omega)]
  decide

/-! ## Traces of the successful apply pipeline -/

/-- Events after the change branch has been created. -/
def cbEvents (cfg : Config) (st0 : List Event) : List Event :=
  st0 ++ [Event.print ("$ " ++ checkoutBCmd cfg.changeBranch),
          Event.execCmd (checkoutBCmd cfg.changeBranch) true]

/-- Events after the patch file has been written. -/
def patchEvents (cfg : Config) (st0 : List Event) (diff : String) :
    List Event :=
  cbEvents cfg st0 ++ [Event.writeFile ".codex.patch" diff]

/-- Events after the patch has been applied. -/
def applyEvents (cfg : Config) (st0 : List Event) (diff : String) :
    List Event :=
  patchEvents cfg st0 diff ++
    [Event.print ("$ " ++ applyCmd), Event.execCmd applyCmd true]

/-- Events after the porcelain status query. -/
def statusEvents (cfg : Config) (st0 : List Event) (diff : String) :
    List Event :=
  applyEvents cfg st0 diff ++
    [Event.print ("$ " ++ statusCmd), Event.execCmd statusCmd false]


lemma patchEvents_def (cfg : Config) (st0 : List Event) (diff : String) :
    cbEvents cfg st0 ++ [Event.writeFile ".codex.patch" diff] =
      patchEvents cfg st0 diff := rfl

/-- Events after the commit command has been issued. -/
def commitEvents (cfg : Config) (st0 : List Event) (diff : String) :
    List Event :=
  statusEvents cfg st0 diff ++
    [Event.print ("$ " ++ commitCmd), Event.execCmd commitCmd true]

/-! ## Claim C2: empty status means no commit and no push -/

/-- C2: in a run that has applied the patch, an empty porcelain status
output ends the run as a successful no-op in which no commit command
and no push command is ever issued; a non-empty status output leads to
the fixed-message commit, and to the push of the change branch once
the commit succeeds. -/
theorem empty_status_skips_commit (cfg : Config) (w : World)
    (st0 : List Event) (lsOut : String)
    (hsync : syncPhase cfg w = (st0, Except.ok lsOut))
    (hdiff : looksLikeDiff (mainDiff w lsOut) = true)
    (hcb : (w.exec st0 (checkoutBCmd cfg.changeBranch)).returncode = 0)
    (happly :
      (w.exec (patchEvents cfg st0 (mainDiff w lsOut)) applyCmd).returncode = 0) :
    (pyStrip (w.exec (applyEvents cfg st0 (mainDiff w lsOut)) statusCmd).stdout
        = "" →
      main cfg w =
        (statusEvents cfg st0 (mainDiff w lsOut) ++
          [Event.print "No changes to commit."], Outcome.finished) ∧
      (∀ k, Event.execCmd commitCmd k ∉ (main cfg w).1) ∧
      (∀ b k, Event.execCmd (pushCmd b) k ∉ (main cfg w).1)) ∧
    (pyStrip (w.exec (applyEvents cfg st0 (mainDiff w lsOut)) statusCmd).stdout
        ≠ "" →
      Event.execCmd commitCmd true ∈ (main cfg w).1 ∧
      ((w.exec (statusEvents cfg st0 (mainDiff w lsOut)) commitCmd).returncode
          = 0 →
        Event.execCmd (pushCmd cfg.changeBranch) true ∈ (main cfg w).1)) := by
  have hm : main cfg w = applyPhase cfg w st0 (mainDiff w lsOut) := by
    unfold main
    rw [hsync]
    simp only
    rw [if_pos hdiff]
  have hr1 : runCmd w st0 (checkoutBCmd cfg.changeBranch) true =
      (cbEvents cfg st0,
       Except.ok (pyStrip (w.exec st0 (checkoutBCmd cfg.changeBranch)).stdout)) := by
    simp [runCmd, hcb, cbEvents]
  have hr2 : runCmd w (patchEvents cfg st0 (mainDiff w lsOut)) applyCmd true =
      (applyEvents cfg st0 (mainDiff w lsOut),
       Except.ok (pyStrip
         (w.exec (patchEvents cfg st0 (mainDiff w lsOut)) applyCmd).stdout)) := by
    simp [runCmd, happly, applyEvents]
  have hap : main cfg w =
      publishPhase cfg w (applyEvents cfg st0 (mainDiff w lsOut)) := by
    rw [hm]
    unfold applyPhase
    rw [hr1]
    simp only
    rw [patchEvents_def, hr2]
  have hr3 : runCmd w (applyEvents cfg st0 (mainDiff w lsOut)) statusCmd false =
      (statusEvents cfg st0 (mainDiff w lsOut),
       Except.ok (pyStrip
         (w.exec (applyEvents cfg st0 (mainDiff w lsOut)) statusCmd).stdout)) := by
    simp [runCmd, statusEvents]
  constructor
  · intro hs
    have hmain2 : main cfg w =
        (statusEvents cfg st0 (mainDiff w lsOut) ++
          [Event.print "No changes to commit."], Outcome.finished) := by
      rw [hap]
      unfold publishPhase
      rw [hr3]
      simp only
      rw [if_pos hs]
    refine ⟨hmain2, ?_, ?_⟩
    · intro k hk
      rw [hmain2] at hk
      simp [statusEvents, applyEvents, patchEvents, cbEvents,
        List.append_assoc] at hk
      rcases hk with hk | hk | hk | hk
      · have hx : Event.execCmd commitCmd k ∈ (syncPhase cfg w).1 := by
          rw [hsync]
          exact hk
        have h0 := mem_execCmd_syncPhase hx
        rcases h0.1 with h0' | h0' | h0'
        · exact commitCmd_ne_checkoutCmd cfg.baseBranch h0'
        · exact absurd h0' (by decide)
        · exact absurd h0' (by decide)
      · exact commitCmd_ne_checkoutBCmd cfg.changeBranch hk.1
      · exact absurd hk.1 (by decide)
      · exact absurd hk.1 (by decide)
    · intro b k hk
      rw [hmain2] at hk
      simp [statusEvents, applyEvents, patchEvents, cbEvents,
        List.append_assoc] at hk
      rcases hk with hk | hk | hk | hk
      · have hx : Event.execCmd (pushCmd b) k ∈ (syncPhase cfg w).1 := by
          rw [hsync]
          exact hk
        have h0 := mem_execCmd_syncPhase hx
        rcases h0.1 with h0' | h0' | h0'
        · exact pushCmd_ne_checkoutCmd b cfg.baseBranch h0'
        · exact pushCmd_ne_pullCmd b h0'
        · exact pushCmd_ne_lsFilesCmd b h0'
      · exact pushCmd_ne_checkoutBCmd b cfg.changeBranch hk.1
      · exact pushCmd_ne_applyCmd b hk.1
      · exact pushCmd_ne_statusCmd b hk.1
  · intro hs
    constructor
    · rw [hap]
      unfold publishPhase
      rw [hr3]
      simp only
      rw [if_neg hs]
      rcases hq4 : runCmd w (statusEvents cfg st0 (mainDiff w lsOut))
          commitCmd true with ⟨st4, r4⟩
      have hc4 : Event.execCmd commitCmd true ∈ st4 := by
        have hself := @self_mem_runCmd w
          (statusEvents cfg st0 (mainDiff w lsOut)) commitCmd true
        rwa [hq4] at hself
      cases r4 with
      | error e => simpa using hc4
      | ok s4 =>
        simp only
        rcases hq5 : runCmd w st4 (pushCmd cfg.changeBranch) true with ⟨st5, r5⟩
        have hc5 : Event.execCmd commitCmd true ∈ st5 := by
          have hmem := @mem_runCmd_of_mem w st4
            (pushCmd cfg.changeBranch) true _ hc4
          rwa [hq5] at hmem
        cases r5 with
        | error e => simpa using hc5
        | ok s5 => simp [hc5]
    · intro hcommit
      have hr4 : runCmd w (statusEvents cfg st0 (mainDiff w lsOut))
          commitCmd true =
          (commitEvents cfg st0 (mainDiff w lsOut),
           Except.ok (pyStrip
             (w.exec (statusEvents cfg st0 (mainDiff w lsOut))
               commitCmd).stdout)) := by
        simp [runCmd, hcommit, commitEvents]
      rw [hap]
      unfold publishPhase
      rw [hr3]
      simp only
      rw [if_neg hs, hr4]
      simp only
      rcases hq5 : runCmd w (commitEvents cfg st0 (mainDiff w lsOut))
          (pushCmd cfg.changeBranch) true with ⟨st5, r5⟩
      have hc5 : Event.execCmd (pushCmd cfg.changeBranch) true ∈ st5 := by
        have hself := @self_mem_runCmd w
          (commitEvents cfg st0 (mainDiff w lsOut))
          (pushCmd cfg.changeBranch) true
        rwa [hq5] at hself
      cases r5 with
      | error e => simpa using hc5
      | ok s5 => simp [hc5]

/-- A world whose model answers with a well-formed diff header and
whose subprocesses all succeed with empty output. -/
def diffWorld : World where
  exec := fun _ _ => ⟨0, "", ""⟩
  readFile := fun _ => none
  modelOutput := fun _ => "diff --git a/x b/x"

/-- Witness for C2: a concrete applied-patch run with empty status ends
as the no-op. -/
theorem empty_status_skips_commit_witness :
    main cfg0 diffWorld =
      (statusEvents cfg0
        [Event.print "$ git checkout master",
         Event.execCmd "git checkout master" true,
         Event.print "$ git pull --ff-only",
         Event.execCmd "git pull --ff-only" true,
         Event.print "$ git ls-files",
         Event.execCmd "git ls-files" true] (mainDiff diffWorld "") ++
        [Event.print "No changes to commit."], Outcome.finished) :=
  ((empty_status_skips_commit cfg0 diffWorld
      [Event.print "$ git checkout master",
       Event.execCmd "git checkout master" true,
       Event.print "$ git pull --ff-only",
       Event.execCmd "git pull --ff-only" true,
       Event.print "$ git ls-files",
       Event.execCmd "git ls-files" true] "" rfl (by decide) (by decide)
      (by decide)).1 (by decide)).1


/-! ## Claim C4: the File Selector allow-list -/

lemma mem_allow_of_include (E : Finset String)
    (hE : ∀ path, should_include_file path = true ↔
      (lowerStr (pathSuffix path) ∈ E ∧
       strContains path "node_modules/" = false ∧
       strContains path ".git/" = false ∧
       strContains path "vendor/" = false))
    (path : String) (h : should_include_file path = true) :
    lowerStr (pathSuffix path) ∈ E :=
  ((hE path).mp h).1

/-- The allow-list as a set. -/
def allowFinset : Finset String :=
  {".js", ".ts", ".tsx", ".py", ".rb", ".go", ".java", ".cs", ".cpp",
   ".c", ".h", ".hpp", ".rs", ".swift", ".php", ".sh", ".yml", ".yaml",
   ".json", ".md", ".html", ".css"}

/-- C4 counterexample: no 21-element extension set characterizes the
File Selector, because all 22 distinct allow-listed extensions are
realized by included paths. -/
theorem file_selector_not_21_extensions :
    ¬ ∃ E : Finset String, E.card = 21 ∧
      ∀ path, should_include_file path = true ↔
        (lowerStr (pathSuffix path) ∈ E ∧
         strContains path "node_modules/" = false ∧
         strContains path ".git/" = false ∧
         strContains path "vendor/" = false) := by
  rintro ⟨E, hcard, hE⟩
  have hsub : allowFinset ⊆ E := by
    intro x hx
    simp only [allowFinset, Finset.mem_insert, Finset.mem_singleton] at hx
    rcases hx with rfl|rfl|rfl|rfl|rfl|rfl|rfl|rfl|rfl|rfl|rfl|rfl|rfl|rfl|rfl|rfl|rfl|rfl|rfl|rfl|rfl|rfl
    · exact (show lowerStr (pathSuffix "a.js") = ".js" from by decide) ▸
        mem_allow_of_include E hE "a.js" (by decide)
    · exact (show lowerStr (pathSuffix "a.ts") = ".ts" from by decide) ▸
        mem_allow_of_include E hE "a.ts" (by decide)
    · exact (show lowerStr (pathSuffix "a.tsx") = ".tsx" from by decide) ▸
        mem_allow_of_include E hE "a.tsx" (by decide)
    · exact (show lowerStr (pathSuffix "a.py") = ".py" from by decide) ▸
        mem_allow_of_include E hE "a.py" (by decide)
    · exact (show lowerStr (pathSuffix "a.rb") = ".rb" from by decide) ▸
        mem_allow_of_include E hE "a.rb" (by decide)
    · exact (show lowerStr (pathSuffix "a.go") = ".go" from by decide) ▸
        mem_allow_of_include E hE "a.go" (by decide)
    · exact (show lowerStr (pathSuffix "a.java") = ".java" from by decide) ▸
        mem_allow_of_include E hE "a.java" (by decide)
    · exact (show lowerStr (pathSuffix "a.cs") = ".cs" from by decide) ▸
        mem_allow_of_include E hE "a.cs" (by decide)
    · exact (show lowerStr (pathSuffix "a.cpp") = ".cpp" from by decide) ▸
        mem_allow_of_include E hE "a.cpp" (by decide)
    · exact (show lowerStr (pathSuffix "a.c") = ".c" from by decide) ▸
        mem_allow_of_include E hE "a.c" (by decide)
    · exact (show lowerStr (pathSuffix "a.h") = ".h" from by decide) ▸
        mem_allow_of_include E hE "a.h" (by decide)
    · exact (show lowerStr (pathSuffix "a.hpp") = ".hpp" from by decide) ▸
        mem_allow_of_include E hE "a.hpp" (by decide)
    · exact (show lowerStr (pathSuffix "a.rs") = ".rs" from by decide) ▸
        mem_allow_of_include E hE "a.rs" (by decide)
    · exact (show lowerStr (pathSuffix "a.swift") = ".swift" from by decide) ▸
        mem_allow_of_include E hE "a.swift" (by decide)
    · exact (show lowerStr (pathSuffix "a.php") = ".php" from by decide) ▸
        mem_allow_of_include E hE "a.php" (by decide)
    · exact (show lowerStr (pathSuffix "a.sh") = ".sh" from by decide) ▸
        mem_allow_of_include E hE "a.sh" (by decide)
    · exact (show lowerStr (pathSuffix "a.yml") = ".yml" from by decide) ▸
        mem_allow_of_include E hE "a.yml" (by decide)
    · exact (show lowerStr (pathSuffix "a.yaml") = ".yaml" from by decide) ▸
        mem_allow_of_include E hE "a.yaml" (by decide)
    · exact (show lowerStr (pathSuffix "a.json") = ".json" from by decide) ▸
        mem_allow_of_include E hE "a.json" (by decide)
    · exact (show lowerStr (pathSuffix "a.md") = ".md" from by decide) ▸
        mem_allow_of_include E hE "a.md" (by decide)
    · exact (show lowerStr (pathSuffix "a.html") = ".html" from by decide) ▸
        mem_allow_of_include E hE "a.html" (by decide)
    · exact (show lowerStr (pathSuffix "a.css") = ".css" from by decide) ▸
        mem_allow_of_include E hE "a.css" (by decide)
  have h22 : (22 : Nat) ≤ E.card := by
    have hc : allowFinset.card = 22 := by decide
    calc (22 : Nat) = allowFinset.card := hc.symm
      _ ≤ E.card := Finset.card_le_card hsub
  rw [hcard] at h22
  exact absurd h22 (by decide)

/-- C4 (amended: the allow-list has 22 extensions, not 21): a path is
included exactly when its lowercased extension is one of the 22
allow-listed extensions and no excluded substring occurs in it, and
the selector is an order-preserving filter of the listing. -/
theorem file_selector_allowlist :
    inclExt.Nodup ∧ inclExt.length = 22 ∧
    (∀ path, should_include_file path = true ↔
      (lowerStr (pathSuffix path) ∈ inclExt ∧
       ¬ ("node_modules/".data <:+: path.data) ∧
       ¬ (".git/".data <:+: path.data) ∧
       ¬ ("vendor/".data <:+: path.data))) ∧
    (∀ out, List.Sublist (list_files out) (splitlines out)) ∧
    (∀ out f, f ∈ list_files out ↔
      (f ∈ splitlines out ∧ should_include_file f = true)) := by
  refine ⟨by decide, by decide, ?_, ?_, ?_⟩
  · intro path
    simp [should_include_file, strContains]
    tauto
  · intro out
    exact List.filter_sublist _
  · intro out f
    simp [list_files, List.mem_filter]

/-- Witness for C4: a concrete included path, through the iff. -/
theorem file_selector_allowlist_witness :
    should_include_file "src/app.py" = true :=
  (file_selector_allowlist.2.2.1 "src/app.py").mpr
    ⟨by decide, by decide, by decide, by decide⟩


/-! ## Claim C9: branch names are shell-quoted into single arguments -/

lemma safe_char_facts (c : Char) (h : shlexSafe c = true) :
    isBlank c = false ∧ isShellSpecial c = false ∧ ¬(c = '\'') ∧ ¬(c = '"') := by
  refine ⟨?_, ?_, ?_, ?_⟩
  · cases hb : isBlank c with
    | false => rfl
    | true =>
      exfalso
      have hd : c = ' ' ∨ c = '\t' := by simpa [isBlank, or_assoc] using hb
      rcases hd with rfl | rfl <;> exact absurd h (by decide)
  · cases hsp : isShellSpecial c with
    | false => rfl
    | true =>
      exfalso
      have hd : c = ';' ∨ c = '&' ∨ c = '|' ∨ c = '<' ∨ c = '>' ∨ c = '(' ∨
          c = ')' ∨ c = '\n' ∨ c = '$' ∨ c = '\\' ∨ c = '#' ∨ c = '*' ∨
          c = '?' ∨ c = '~' ∨ c = '!' ∨ c = '\r' ∨ c = '\u0060' ∨
          c = '\u007b' ∨ c = '\u007d' := by
        simpa [isShellSpecial, or_assoc] using hsp
      rcases hd with rfl|rfl|rfl|rfl|rfl|rfl|rfl|rfl|rfl|rfl|rfl|rfl|rfl|rfl|rfl|rfl|rfl|rfl|rfl <;>
        exact absurd h (by decide)
  · rintro rfl
    exact absurd h (by decide)
  · rintro rfl
    exact absurd h (by decide)


lemma lex_step_safe {c : Char} (h : shlexSafe c = true) (rest acc : List Char)
    (started : Bool) (words : List (List Char)) :
    lex .normal (c :: rest) acc started words =
      lex .normal rest (acc ++ [c]) true words := by
  obtain ⟨h1, h2, h3, h4⟩ := safe_char_facts c h
  simp [lex, h1, h2, h3, h4]

lemma lex_safe_run (l : List Char) (hl : ∀ c ∈ l, shlexSafe c = true)
    (acc : List Char) (words : List (List Char)) :
    lex .normal l acc true words = some (words ++ [acc ++ l]) := by
  induction l generalizing acc with
  | nil => simp [lex]
  | cons c t ih =>
    rw [lex_step_safe (hl c (by simp)) t acc true words]
    rw [ih (fun x hx => hl x (by simp [hx])) (acc ++ [c])]
    simp

lemma lex_quote_body (l : List Char) (rest acc : List Char)
    (words : List (List Char)) :
    lex .insingle (l.flatMap quoteChar ++ ('\'' :: rest)) acc true words =
      lex .normal rest (acc ++ l) true words := by
  induction l generalizing acc with
  | nil => simp [lex]
  | cons c t ih =>
    by_cases hc : c = '\''
    · subst hc
      rw [List.flatMap_cons,
        show quoteChar '\'' = ['\'', '"', '\'', '"', '\''] from rfl]
      simp only [List.cons_append, List.append_assoc, List.nil_append]
      rw [show lex .insingle ('\'' :: '"' :: '\'' :: '"' :: '\'' ::
          (t.flatMap quoteChar ++ '\'' :: rest)) acc true words =
        lex .insingle (t.flatMap quoteChar ++ '\'' :: rest) (acc ++ ['\''])
          true words from by simp [lex]]
      rw [ih (acc ++ ['\''])]
      simp
    · rw [List.flatMap_cons, show quoteChar c = [c] from by simp [quoteChar, hc]]
      simp only [List.cons_append, List.singleton_append, List.append_assoc, List.nil_append]
      rw [show lex .insingle (c :: (t.flatMap quoteChar ++ '\'' :: rest))
          acc true words =
        lex .insingle (t.flatMap quoteChar ++ '\'' :: rest) (acc ++ [c])
          true words from by simp [lex, hc]]
      rw [ih (acc ++ [c])]
      simp

lemma lex_shlexQuote (b : String) (words : List (List Char)) :
    lex .normal (shlexQuote b).data [] false words =
      some (words ++ [b.data]) := by
  by_cases hempty : b.data = []
  · rw [shlexQuote, if_pos hempty, hempty]
    show lex .normal ['\'', '\''] [] false words = some (words ++ [[]])
    simp [lex]
  · by_cases hsafe : b.data.all shlexSafe
    · rw [shlexQuote, if_neg hempty, if_pos hsafe]
      obtain ⟨c, t, hct⟩ := List.exists_cons_of_ne_nil hempty
      rw [hct]
      have hall : ∀ x ∈ c :: t, shlexSafe x = true := by
        intro x hx
        exact List.all_eq_true.mp hsafe x (by rw [hct]; exact hx)
      rw [lex_step_safe (hall c (by simp)) t [] false words]
      rw [show (([] : List Char) ++ [c]) = [c] from rfl]
      rw [lex_safe_run t (fun x hx => hall x (by simp [hx])) [c] words]
      simp
    · rw [shlexQuote, if_neg hempty, if_neg hsafe]
      show lex .normal ('\'' :: (b.data.flatMap quoteChar ++ ['\'']))
        [] false words = some (words ++ [b.data])
      rw [show lex .normal ('\'' :: (b.data.flatMap quoteChar ++ ['\'']))
          [] false words =
        lex .insingle (b.data.flatMap quoteChar ++ ['\'']) [] true words
          from by simp [lex]]
      rw [show (['\''] : List Char) = '\'' :: [] from rfl]
      rw [lex_quote_body b.data [] [] words]
      simp [lex]

lemma shellWords_checkoutCmd (b : String) :
    shellWords (checkoutCmd b) = some ["git", "checkout", b] := by
  unfold shellWords
  rw [checkoutCmd_data]
  rw [show lex .normal ("git checkout ".data ++ (shlexQuote b).data)
      [] false [] =
    lex .normal (shlexQuote b).data [] false
      [['g', 'i', 't'], ['c', 'h', 'e', 'c', 'k', 'o', 'u', 't']] from rfl]
  rw [lex_shlexQuote]
  rfl

lemma shellWords_checkoutBCmd (b : String) :
    shellWords (checkoutBCmd b) = some ["git", "checkout", "-b", b] := by
  unfold shellWords
  rw [checkoutBCmd_data]
  rw [show lex .normal ("git checkout -b ".data ++ (shlexQuote b).data)
      [] false [] =
    lex .normal (shlexQuote b).data [] false
      [['g', 'i', 't'], ['c', 'h', 'e', 'c', 'k', 'o', 'u', 't'],
       ['-', 'b']] from rfl]
  rw [lex_shlexQuote]
  rfl

lemma shellWords_pushCmd (b : String) :
    shellWords (pushCmd b) = some ["git", "push", "-u", "origin", b] := by
  unfold shellWords
  rw [pushCmd_data]
  rw [show lex .normal ("git push -u origin ".data ++ (shlexQuote b).data)
      [] false [] =
    lex .normal (shlexQuote b).data [] false
      [['g', 'i', 't'], ['p', 'u', 's', 'h'], ['-', 'u'],
       ['o', 'r', 'i', 'g', 'i', 'n']] from rfl]
  rw [lex_shlexQuote]
  rfl

/-- C9: for every branch-name value, the quoted checkout, branch
creation and push command strings lex (under the refusing shell word
lexer) as exactly one simple command whose final argv entry is the
branch name verbatim, so no branch-name value can inject further shell
commands. -/
theorem branch_names_shell_quoted (b : String) :
    shellWords (checkoutCmd b) = some ["git", "checkout", b] ∧
    shellWords (checkoutBCmd b) = some ["git", "checkout", "-b", b] ∧
    shellWords (pushCmd b) = some ["git", "push", "-u", "origin", b] :=
  ⟨shellWords_checkoutCmd b, shellWords_checkoutBCmd b, shellWords_pushCmd b⟩

end CodexRefactor








